import Mathlib

/-!
Verification development for SAAF (Self-Auditing Async Flow), a shallow
embedding of `index.js`: the `SAAF.execute` step engine (bounded
Draft → Critique → Revise loop with an append-only audit history) and
`SAAF.computeAuditRoot` (a sequential SHA-256 hash chain over canonical
audit-entry payloads).

Modelling conventions:
- JavaScript values threaded through the flow are modelled by the
  JSON-like inductive `Js` (numbers as `Int`; a missing/`undefined`
  object field is `Option.none` on the record side).
- The caller-supplied `draft`, `critique`, `revise` capabilities are
  awaited strictly sequentially by the engine, so the async runner is
  modelled as a pure fold; a thrown error is `Except.error` carrying the
  error's message string.
- `Date.now()` timestamps are modelled by a `ts` value threaded per step;
  no claim below depends on the timestamp values.
- The engine additionally returns a ghost trace (`Ev`) of the critique and
  revise invocations it performs, used only to state invocation-counting
  properties; the audit history and result ignore it.
-/

namespace SAAF

/-- JSON-like JavaScript values. -/
inductive Js where
  | null : Js
  | bool : Bool → Js
  | num  : Int → Js
  | str  : String → Js
  | arr  : List Js → Js
  | obj  : List (String × Js) → Js

/-- JavaScript truthiness of a `Js` value: `null`, `false`, `0` and the
empty string are falsy; arrays and objects are always truthy. -/
def Js.falsy : Js → Bool
  | .null => true
  | .bool b => !b
  | .num n => n == 0
  | .str s => s.isEmpty
  | .arr _ => false
  | .obj _ => false

/-- Source `critiques = critique(current) || []` (index.js line 149):
a falsy critique result is replaced by the empty array. -/
def orEmpty (v : Js) : Js := if v.falsy then Js.arr [] else v

/-- Source `Array.isArray(critiques) && critiques.length > 0`
(index.js lines 155 and 186, the two checks being negations of each
other over these values): `true` iff the value is a non-empty array. -/
def hasIssues : Js → Bool
  | .arr (_ :: _) => true
  | _ => false

/-- A step descriptor. A `none` capability models a field that is missing
or not a function (the engine's `typeof f !== "function"` check conflates
the two). `maxIterations`/`delayMs` are `none` when absent; `delayMs`
only inserts a pause between revise and the next critique and has no
effect on any value computed here. -/
structure Step where
  draft    : Option (Js → Except String Js) := none
  critique : Option (Js → Except String Js) := none
  revise   : Option (Js → Js → Js → Except String Js) := none
  maxIterations : Option Int := none
  delayMs : Option Int := none

/-- The empty object `{}` used for a null/undefined element of the step
array (`steps[i] || {}`, index.js line 125). -/
def emptyStep : Step := {}

/-- Effective iteration cap `Math.max(1, maxIterations)` with the default
`3` for an absent field (index.js lines 125, 147 and 186; the
destructuring default and the `?? 3` agree for an absent or
integer-valued field). -/
def effMaxIters (m : Option Int) : Nat := (max 1 (m.getD 3)).toNat

/-- One audit entry. Absent fields are `none`; the engine never mutates an
entry after appending it. -/
structure AuditEntry where
  stepIndex : Nat
  ts : Nat
  phase : String
  error : Option String := none
  inputState : Option Js := none
  draftState : Option Js := none
  critiques : Option Js := none
  finalState : Option Js := none
  iterations : Option Nat := none

/-- Ghost trace of capability invocations performed by the critique/revise
loop: each critique call with its input and raw result, and each revise
call with its input, the issues passed, and its result. -/
inductive Ev where
  | crit (input : Js) (result : Except String Js)
  | revi (input : Js) (issues : Js) (result : Except String Js)

/-- Number of critique invocations recorded in a trace. -/
def critCalls : List Ev → Nat
  | [] => 0
  | .crit _ _ :: rest => critCalls rest + 1
  | .revi _ _ _ :: rest => critCalls rest

/-- Number of revise invocations recorded in a trace. -/
def revCalls : List Ev → Nat
  | [] => 0
  | .crit _ _ :: rest => revCalls rest
  | .revi _ _ _ :: rest => revCalls rest + 1

/-- Outcome of the bounded critique/revise loop (index.js lines 147-184):
the loop either breaks with an accepted state, runs its budget to
exhaustion (the `for` condition fails with issues still pending), or a
capability throws. -/
inductive LoopOutcome where
  | accepted (finalS : Js)
  | exhausted (iterations : Nat) (critiques : Js) (current : Js)
  | failed (msg : String)

/-- The bounded critique → revise cycle of index.js lines 147-184.
Arguments mirror the source's loop state: `iterations` is the loop
counter, `fuel` is the remaining budget (`Math.max(1, maxIterations) -
iterations`), `critiques` the last critique result and `current` the
candidate state. Returns the audit entries appended inside the loop, the
ghost invocation trace, and the outcome. -/
def critiqueReviseLoop (critiqueFn : Js → Except String Js)
    (reviseFn : Js → Js → Js → Except String Js)
    (i t : Nat) (stepStartState draftState : Js) :
    Nat → Nat → Js → Js → List AuditEntry × List Ev × LoopOutcome
  | iterations, 0, critiques, current =>
      ([], [], .exhausted iterations critiques current)
  | iterations, fuel + 1, _, current =>
      match critiqueFn current with
      | .error e =>
          ([{ stepIndex := i, ts := t, phase := "critique:error",
              error := some e, draftState := some current,
              inputState := some stepStartState }],
           [.crit current (.error e)], .failed e)
      | .ok cres =>
          let critiques := orEmpty cres
          if hasIssues critiques then
            match reviseFn current critiques stepStartState with
            | .error e =>
                ([{ stepIndex := i, ts := t, phase := "revise:error",
                    error := some e, draftState := some draftState,
                    critiques := some critiques,
                    inputState := some stepStartState }],
                 [.crit current (.ok cres), .revi current critiques (.error e)],
                 .failed e)
            | .ok next =>
                let r := critiqueReviseLoop critiqueFn reviseFn i t
                  stepStartState draftState (iterations + 1) fuel critiques next
                (r.1, .crit current (.ok cres) :: .revi current critiques (.ok next) :: r.2.1,
                 r.2.2)
          else
            ([{ stepIndex := i, ts := t,
                phase := if iterations == 0 then "draft:accepted" else "revise:accepted",
                inputState := some stepStartState, draftState := some draftState,
                critiques := some (Js.arr []), finalState := some current,
                iterations := some iterations }],
             [.crit current (.ok cres)], .accepted current)

/-- Error message of index.js line 128. -/
def invalidStepMsg (i : Nat) : String :=
  "Step " ++ toString i ++ " is invalid. Expected functions: draft, critique, revise."

/-- Body of the per-step loop of index.js lines 124-199: validate the step
(`steps[i] || {}` then the `typeof` checks), draft, run the bounded
critique/revise cycle, and apply the post-loop cap check of line 186.
Returns the audit entries appended for this step, the ghost trace, and
either the step's resulting state or the thrown error's message. -/
def runStep (i t : Nat) (stepOpt : Option Step) (state : Js) :
    List AuditEntry × List Ev × Except String Js :=
  let s := stepOpt.getD emptyStep
  match s.draft, s.critique, s.revise with
  | some draftFn, some critiqueFn, some reviseFn =>
      match draftFn state with
      | .error e =>
          ([{ stepIndex := i, ts := t, phase := "draft:error", error := some e,
              inputState := some state }], [], .error e)
      | .ok draftState =>
          let cap := effMaxIters s.maxIterations
          let r := critiqueReviseLoop critiqueFn reviseFn i t state draftState
            0 cap (Js.arr []) draftState
          match r.2.2 with
          | .accepted finalS => (r.1, r.2.1, .ok finalS)
          | .failed e => (r.1, r.2.1, .error e)
          | .exhausted iters cs cur =>
              if iters ≥ effMaxIters s.maxIterations && hasIssues cs then
                (r.1 ++ [{ stepIndex := i, ts := t, phase := "revise:capped",
                           inputState := some state, draftState := some draftState,
                           critiques := some cs, finalState := some cur,
                           iterations := some iters }],
                 r.2.1, .ok cur)
              else
                (r.1, r.2.1, .ok state)
  | _, _, _ =>
      ([{ stepIndex := i, ts := t, phase := "invalid",
          error := some (invalidStepMsg i), inputState := some state }],
       [], .error (invalidStepMsg i))

/-- The `run` loop of index.js lines 121-203 from step index `i` onward:
steps run strictly in array order, the first thrown error rejects the
run, and each step's entries are appended in execution order. The step
index doubles as the modelled timestamp. -/
def runSteps : List (Option Step) → Nat → Js → List AuditEntry × Except String Js
  | [], _, state => ([], .ok state)
  | s :: rest, i, state =>
      let r := runStep i i s state
      match r.2.2 with
      | .error e => (r.1, .error e)
      | .ok next =>
          let r2 := runSteps rest (i + 1) next
          (r.1 ++ r2.1, r2.2)

/-- `SAAF.execute(initialState, steps)` (index.js lines 118-221), modelled
as the audit history plus the settled result of the returned promise. A
`none` element of the step list models a null/undefined array element. -/
def execute (initialState : Js) (steps : List (Option Step)) :
    List AuditEntry × Except String Js :=
  runSteps steps 0 initialState

/-- Hexadecimal digit character, lower case. -/
def hexDigit (n : Nat) : Char :=
  if n < 10 then Char.ofNat (48 + n) else Char.ofNat (87 + n)

/-- JSON string escaping as performed by `JSON.stringify`: quote,
backslash and control characters are escaped, everything else is kept. -/
def escapeJsonChar (c : Char) : String :=
  if c = '\"' then "\\\""
  else if c = '\\' then "\\\\"
  else if c = '\n' then "\\n"
  else if c = '\r' then "\\r"
  else if c = '\t' then "\\t"
  else if c.toNat = 8 then "\\b"
  else if c.toNat = 12 then "\\f"
  else if c.toNat < 32 then
    "\\u00" ++ String.mk [hexDigit (c.toNat / 16), hexDigit (c.toNat % 16)]
  else String.mk [c]

/-- A JSON string literal for `s`, double-quoted and escaped. -/
def escapeJson (s : String) : String :=
  "\"" ++ String.join (s.data.map escapeJsonChar) ++ "\""

mutual

/-- `JSON.stringify` over `Js` values: object keys in insertion order,
no whitespace, numbers in decimal. -/
def jsonStringify : Js → String
  | .null => "null"
  | .bool true => "true"
  | .bool false => "false"
  | .num n => toString n
  | .str s => escapeJson s
  | .arr l => "[" ++ jsonArrBody l ++ "]"
  | .obj l => "\x7b" ++ jsonObjBody l ++ "\x7d"

/-- Comma-separated serialization of array elements. -/
def jsonArrBody : List Js → String
  | [] => ""
  | [v] => jsonStringify v
  | v :: rest => jsonStringify v ++ "," ++ jsonArrBody rest

/-- Comma-separated serialization of object members. -/
def jsonObjBody : List (String × Js) → String
  | [] => ""
  | [(k, v)] => escapeJson k ++ ":" ++ jsonStringify v
  | (k, v) :: rest => escapeJson k ++ ":" ++ jsonStringify v ++ "," ++ jsonObjBody rest

end

/-- UTF-8 encoding of one character, as a list of byte values. -/
def utf8Char (c : Char) : List Nat :=
  let n := c.toNat
  if n < 128 then [n]
  else if n < 2048 then [192 ||| (n >>> 6), 128 ||| (n &&& 63)]
  else if n < 65536 then
    [224 ||| (n >>> 12), 128 ||| ((n >>> 6) &&& 63), 128 ||| (n &&& 63)]
  else
    [240 ||| (n >>> 18), 128 ||| ((n >>> 12) &&& 63),
     128 ||| ((n >>> 6) &&& 63), 128 ||| (n &&& 63)]

/-- UTF-8 bytes of a string (`Buffer.from(s)` in the source). -/
def strBytes (s : String) : List Nat :=
  s.data.foldr (fun c acc => utf8Char c ++ acc) []

/-- Two to the thirty-second power, the word modulus of SHA-256. -/
def w32 : Nat := 4294967296

/-- Right rotation of a 32-bit word. -/
def rotr32 (n x : Nat) : Nat := ((x >>> n) ||| (x <<< (32 - n))) % w32

/-- First small sigma of the SHA-256 message schedule. -/
def schedSigma0 (x : Nat) : Nat := (rotr32 7 x) ^^^ (rotr32 18 x) ^^^ (x >>> 3)

/-- Second small sigma of the SHA-256 message schedule. -/
def schedSigma1 (x : Nat) : Nat := (rotr32 17 x) ^^^ (rotr32 19 x) ^^^ (x >>> 10)

/-- First big sigma of the SHA-256 compression function. -/
def roundSigma0 (x : Nat) : Nat := (rotr32 2 x) ^^^ (rotr32 13 x) ^^^ (rotr32 22 x)

/-- Second big sigma of the SHA-256 compression function. -/
def roundSigma1 (x : Nat) : Nat := (rotr32 6 x) ^^^ (rotr32 11 x) ^^^ (rotr32 25 x)

/-- SHA-256 choice function, with bitwise complement taken inside 32
bits. -/
def chFn (x y z : Nat) : Nat := (x &&& y) ^^^ ((x ^^^ (w32 - 1)) &&& z)

/-- SHA-256 majority function. -/
def majFn (x y z : Nat) : Nat := (x &&& y) ^^^ (x &&& z) ^^^ (y &&& z)

/-- The sixty-four SHA-256 round constants of FIPS 180-4, in decimal. -/
def k256 : List Nat :=
  [1116352408, 1899447441, 3049323471, 3921009573, 961987163,
   1508970993, 2453635748, 2870763221, 3624381080, 310598401,
   607225278, 1426881987, 1925078388, 2162078206, 2614888103,
   3248222580, 3835390401, 4022224774, 264347078, 604807628,
   770255983, 1249150122, 1555081692, 1996064986, 2554220882,
   2821834349, 2952996808, 3210313671, 3336571891, 3584528711,
   113926993, 338241895, 666307205, 773529912, 1294757372,
   1396182291, 1695183700, 1986661051, 2177026350, 2456956037,
   2730485921, 2820302411, 3259730800, 3345764771, 3516065817,
   3600352804, 4094571909, 275423344, 430227734, 506948616,
   659060556, 883997877, 958139571, 1322822218, 1537002063,
   1747873779, 1955562222, 2024104815, 2227730452, 2361852424,
   2428436474, 2756734187, 3204031479, 3329325298]

/-- The eight SHA-256 initial hash values of FIPS 180-4, in decimal. -/
def h256init : List Nat :=
  [1779033703, 3144134277, 1013904242,
   2773480762, 1359893119, 2600822924,
   528734635, 1541459225]

/-- Big-endian 8-byte encoding of a length value. -/
def beBytes8 (n : Nat) : List Nat :=
  [(n >>> 56) % 256, (n >>> 48) % 256, (n >>> 40) % 256, (n >>> 32) % 256,
   (n >>> 24) % 256, (n >>> 16) % 256, (n >>> 8) % 256, n % 256]

/-- Big-endian 4-byte encoding of a 32-bit word. -/
def beBytes4 (n : Nat) : List Nat :=
  [(n >>> 24) % 256, (n >>> 16) % 256, (n >>> 8) % 256, n % 256]

/-- SHA-256 padding: append `0x80`, zero bytes to 56 mod 64, then the
bit length as a big-endian 64-bit integer. -/
def sha256Pad (msg : List Nat) : List Nat :=
  msg ++ 128 :: List.replicate ((119 - msg.length % 64) % 64) 0
      ++ beBytes8 (8 * msg.length)

/-- Grouping of four bytes into big-endian 32-bit words. -/
def toWords : List Nat → List Nat
  | b0 :: b1 :: b2 :: b3 :: rest =>
      (((b0 * 256 + b1) * 256 + b2) * 256 + b3) :: toWords rest
  | _ => []

/-- Message-schedule extension: append `n` further words to `ws`. -/
def extendWords : List Nat → Nat → List Nat
  | ws, 0 => ws
  | ws, n + 1 =>
      let i := ws.length
      let wNew := (schedSigma1 (ws.getD (i - 2) 0) + ws.getD (i - 7) 0 +
                   schedSigma0 (ws.getD (i - 15) 0) + ws.getD (i - 16) 0) % w32
      extendWords (ws ++ [wNew]) n

/-- One round of the SHA-256 compression function on the working state
`[a, b, c, d, e, f, g, h]` with a round constant and schedule word. -/
def compressStep : List Nat → Nat × Nat → List Nat
  | [a, b, c, d, e, f, g, h], (kc, wc) =>
      let t1 := (h + roundSigma1 e + chFn e f g + kc + wc) % w32
      let t2 := (roundSigma0 a + majFn a b c) % w32
      [(t1 + t2) % w32, a, b, c, (d + t1) % w32, e, f, g]
  | s, _ => s

/-- Processing of one 64-byte block into the running hash. -/
def processBlock (hsh : List Nat) (block : List Nat) : List Nat :=
  let ws := extendWords (toWords block) 48
  let st := (k256.zip ws).foldl compressStep hsh
  (hsh.zip st).map fun p => (p.1 + p.2) % w32

/-- Splitting of a byte list into 64-byte chunks. -/
def chunks64 : List Nat → List (List Nat)
  | [] => []
  | x :: rest => (x :: rest.take 63) :: chunks64 (rest.drop 63)
termination_by l => l.length
decreasing_by simp [List.length_drop]; omega

/-- SHA-256 digest of a byte list, as 32 bytes. -/
def sha256 (msg : List Nat) : List Nat :=
  let final := (chunks64 (sha256Pad msg)).foldl processBlock h256init
  final.foldr (fun w acc => beBytes4 w ++ acc) []

/-- Lower-case hex rendering of a byte list (`Buffer.toString("hex")`). -/
def bytesToHex (bs : List Nat) : String :=
  String.mk (bs.foldr (fun b acc => hexDigit (b / 16 % 16) :: hexDigit (b % 16) :: acc) [])

/-- Source `Array.isArray(entry.critiques) ? entry.critiques.length : 0`
(index.js line 95). -/
def critiqueCount : Option Js → Int
  | some (Js.arr l) => Int.ofNat l.length
  | _ => 0

/-- Canonical hashed payload of an audit entry (index.js lines 91-100):
only these seven fields, in this key order, with absent states
normalized to null. -/
def payload (e : AuditEntry) : Js :=
  Js.obj [( "stepIndex", Js.num (Int.ofNat e.stepIndex)),
          ( "ts", Js.num (Int.ofNat e.ts)),
          ( "phase", Js.str e.phase),
          ( "critiqueCount", Js.num (critiqueCount e.critiques)),
          ( "inputState", e.inputState.getD Js.null),
          ( "draftState", e.draftState.getD Js.null),
          ( "finalState", e.finalState.getD Js.null)]

/-- One link of the hash chain (index.js lines 89-104): the digest of the
running accumulator followed by the serialized payload. -/
def chainStep (running : List Nat) (e : AuditEntry) : List Nat :=
  sha256 (running ++ strBytes (jsonStringify (payload e)))

/-- `SAAF.computeAuditRoot(auditHistory)` (index.js lines 86-107): the
sequential SHA-256 chain over all entries, hex encoded; the accumulator
starts as the empty buffer. -/
def computeAuditRoot (auditHistory : List AuditEntry) : String :=
  bytesToHex (auditHistory.foldl chainStep [])

/-- Canonical audit-entry payload as the spec's §4.2 words describe it:
exactly `stepIndex`, the entry's timestamp, `phase`, the count of
`critiques` when present else 0, and the three states each normalized to
an explicit null when absent. Written from the spec for comparison with
the source-derived `payload`. -/
def specCanonicalPayload (e : AuditEntry) : Js :=
  Js.obj [( "stepIndex", Js.num (Int.ofNat e.stepIndex)),
          ( "ts", Js.num (Int.ofNat e.ts)),
          ( "phase", Js.str e.phase),
          ( "critiqueCount", Js.num (critiqueCount e.critiques)),
          ( "inputState", e.inputState.getD Js.null),
          ( "draftState", e.draftState.getD Js.null),
          ( "finalState", e.finalState.getD Js.null)]

/-- The spec's §4.2 sequential fold: start from an empty accumulator and,
for each entry in order, replace the accumulator by the digest of the
accumulator concatenated with the serialized canonical payload. -/
def specAuditFold : List Nat → List AuditEntry → List Nat
  | acc, [] => acc
  | acc, e :: rest =>
      specAuditFold (sha256 (acc ++ strBytes (jsonStringify (specCanonicalPayload e)))) rest

/-- Draft capability of the repository's cap test: reset the state to 0. -/
def capDraft : Js → Except String Js := fun _ => .ok (Js.num 0)

/-- Critique capability of the repository's cap test: demand the value 3. -/
def capCritique : Js → Except String Js := fun s =>
  match s with
  | Js.num n => if n = 3 then .ok (Js.arr []) else .ok (Js.arr [Js.str "not three"])
  | _ => .ok (Js.arr [Js.str "not three"])

/-- Revise capability of the repository's cap test: increment the value. -/
def capRevise : Js → Js → Js → Except String Js := fun s _ _ =>
  match s with
  | Js.num n => .ok (Js.num (n + 1))
  | _ => .ok s

/-- The repository's cap-and-proceed test step: `maxIterations = 2`
cannot reach 3, so the loop caps. -/
def capStep : Step :=
  { draft := some capDraft, critique := some capCritique, revise := some capRevise,
    maxIterations := some 2 }

/-- The cap test step restricted to a single allowed iteration. -/
def oneIterStep : Step :=
  { draft := some capDraft, critique := some capCritique, revise := some capRevise,
    maxIterations := some 1 }

/-- Draft capability producing the constant 7. -/
def sevenDraft : Js → Except String Js := fun _ => .ok (Js.num 7)

/-- Critique capability reporting no issues via an empty array. -/
def cleanCritique : Js → Except String Js := fun _ => .ok (Js.arr [])

/-- Critique capability reporting no issues via a falsy (null) result. -/
def falsyCritique : Js → Except String Js := fun _ => .ok Js.null

/-- Revise capability returning its input unchanged. -/
def idRevise : Js → Js → Js → Except String Js := fun s _ _ => .ok s

/-- A step whose `maxIterations = 0` is coerced to 1 and whose first
critique is already clean. -/
def coercedCleanStep : Step :=
  { draft := some sevenDraft, critique := some cleanCritique, revise := some idRevise,
    maxIterations := some 0 }

/-- A well-formed step accepting its draft at once (falsy critique). -/
def passStep : Step :=
  { draft := some sevenDraft, critique := some falsyCritique, revise := some idRevise }

/-- A malformed step: `draft` is missing. -/
def noDraftStep : Step :=
  { critique := some cleanCritique, revise := some idRevise }

/-- Audit entry with an error message, first variant. -/
def entryErrA : AuditEntry :=
  { stepIndex := 0, ts := 0, phase := "invalid", error := some "boom-a",
    inputState := some Js.null }

/-- Audit entry identical to `entryErrA` except for the `error` field. -/
def entryErrB : AuditEntry :=
  { stepIndex := 0, ts := 0, phase := "invalid", error := some "boom-b",
    inputState := some Js.null }

/-- The effective iteration cap is always at least one. -/
theorem effMaxIters_pos (m : Option Int) : 1 ≤ effMaxIters m := by
  have h : (1 : Int) ≤ max 1 (m.getD 3) := le_max_left _ _
  unfold effMaxIters
  omega

/-- The critique/revise loop makes at most `fuel` critique invocations and
at most `fuel` revise invocations. -/
theorem loop_trace_counts (cF : Js → Except String Js)
    (rF : Js → Js → Js → Except String Js) (i t : Nat) (ss ds : Js) :
    ∀ (fuel iters : Nat) (cs cur : Js),
      critCalls (critiqueReviseLoop cF rF i t ss ds iters fuel cs cur).2.1 ≤ fuel ∧
      revCalls (critiqueReviseLoop cF rF i t ss ds iters fuel cs cur).2.1 ≤ fuel := by
  intro fuel
  induction fuel with
  | zero =>
      intro iters cs cur
      simp [critiqueReviseLoop, critCalls, revCalls]
  | succ f ih =>
      intro iters cs cur
      simp only [critiqueReviseLoop]
      cases hc : cF cur with
      | error e => simp [critCalls, revCalls]
      | ok cres =>
          by_cases hi : hasIssues (orEmpty cres) = true
          · simp only [hi, if_true]
            cases hr : rF cur (orEmpty cres) ss with
            | error e => simp [critCalls, revCalls]
            | ok next =>
                have h := ih (iters + 1) (orEmpty cres) next
                simp only [critCalls, revCalls]
                omega
          · simp only [eq_false_of_ne_true hi, if_false]
            simp [critCalls, revCalls]

/-- Shape of a loop run that exhausts its budget: no entry is appended
inside the loop, the iteration count reaches `iters + fuel`, and when at
least one iteration ran, the remaining issues are a non-empty array and
the trace ends with the critique that reported them followed by the
revise call that produced the final candidate. -/
theorem loop_exhausted_shape (cF : Js → Except String Js)
    (rF : Js → Js → Js → Except String Js) (i t : Nat) (ss ds : Js) :
    ∀ (fuel iters : Nat) (cs cur : Js) (es : List AuditEntry) (tr : List Ev)
      (it : Nat) (cs' cur' : Js),
      critiqueReviseLoop cF rF i t ss ds iters fuel cs cur = (es, tr, .exhausted it cs' cur') →
      it = iters + fuel ∧ es = [] ∧
      (fuel = 0 → cs' = cs ∧ cur' = cur ∧ tr = []) ∧
      (1 ≤ fuel →
        hasIssues cs' = true ∧
        ∃ (tr₀ : List Ev) (p raw : Js),
          tr = tr₀ ++ [.crit p (.ok raw), .revi p cs' (.ok cur')] ∧
          cs' = orEmpty raw ∧ rF p cs' ss = .ok cur') := by
  intro fuel
  induction fuel with
  | zero =>
      intro iters cs cur es tr it cs' cur' h
      simp only [critiqueReviseLoop, Prod.mk.injEq] at h
      obtain ⟨he, ht, hout⟩ := h
      obtain ⟨h1, h2, h3⟩ := LoopOutcome.exhausted.injEq .. |>.mp hout
      refine ⟨by omega, he.symm, fun _ => ⟨h2.symm, h3.symm, ht.symm⟩, fun hf => by omega⟩
  | succ f ih =>
      intro iters cs cur es tr it cs' cur' h
      simp only [critiqueReviseLoop] at h
      cases hc : cF cur with
      | error e => rw [hc] at h; simp at h
      | ok cres =>
          rw [hc] at h
          by_cases hi : hasIssues (orEmpty cres) = true
          · simp only [hi, if_true] at h
            cases hr : rF cur (orEmpty cres) ss with
            | error e => rw [hr] at h; simp at h
            | ok next =>
                rw [hr] at h
                simp only [Prod.mk.injEq] at h
                rcases hrec : critiqueReviseLoop cF rF i t ss ds (iters + 1) f (orEmpty cres) next
                  with ⟨es₂, tr₂, out₂⟩
                rw [hrec] at h
                simp only at h
                obtain ⟨he, ht, hout⟩ := h
                subst hout
                obtain ⟨hit, hes, hzero, htail⟩ :=
                  ih (iters + 1) (orEmpty cres) next es₂ tr₂ it cs' cur' hrec
                refine ⟨by omega, by rw [← he, hes], fun h0 => by omega, fun _ => ?_⟩
                rcases Nat.eq_zero_or_pos f with hf | hf
                · obtain ⟨hcs, hcur, htr⟩ := hzero hf
                  subst hcs; subst hcur
                  refine ⟨hi, [], cur, cres, ?_, rfl, hr⟩
                  rw [← ht, htr]
                  simp
                · obtain ⟨hiss, tr₀, p, raw, htr, hraw, hrev⟩ := htail hf
                  refine ⟨hiss, .crit cur (.ok cres) :: .revi cur (orEmpty cres) (.ok next) :: tr₀,
                          p, raw, ?_, hraw, hrev⟩
                  rw [← ht, htr]
                  simp
          · simp only [eq_false_of_ne_true hi, if_false] at h
            simp at h

/-- Shape of a loop run that breaks with an accepted state: exactly one
entry is appended, recording the iteration `k` at which the critique came
back clean, with phase `draft:accepted` exactly when `k = 0`. -/
theorem loop_accepted_shape (cF : Js → Except String Js)
    (rF : Js → Js → Js → Except String Js) (i t : Nat) (ss ds : Js) :
    ∀ (fuel iters : Nat) (cs cur : Js) (es : List AuditEntry) (tr : List Ev) (fin : Js),
      critiqueReviseLoop cF rF i t ss ds iters fuel cs cur = (es, tr, .accepted fin) →
      ∃ k, iters ≤ k ∧ k < iters + fuel ∧
        es = [{ stepIndex := i, ts := t,
                phase := if k == 0 then "draft:accepted" else "revise:accepted",
                inputState := some ss, draftState := some ds,
                critiques := some (Js.arr []), finalState := some fin,
                iterations := some k }] := by
  intro fuel
  induction fuel with
  | zero =>
      intro iters cs cur es tr fin h
      simp [critiqueReviseLoop] at h
  | succ f ih =>
      intro iters cs cur es tr fin h
      simp only [critiqueReviseLoop] at h
      cases hc : cF cur with
      | error e => rw [hc] at h; simp at h
      | ok cres =>
          rw [hc] at h
          by_cases hi : hasIssues (orEmpty cres) = true
          · simp only [hi, if_true] at h
            cases hr : rF cur (orEmpty cres) ss with
            | error e => rw [hr] at h; simp at h
            | ok next =>
                rw [hr] at h
                simp only [Prod.mk.injEq] at h
                rcases hrec : critiqueReviseLoop cF rF i t ss ds (iters + 1) f (orEmpty cres) next
                  with ⟨es₂, tr₂, out₂⟩
                rw [hrec] at h
                simp only at h
                obtain ⟨he, ht, hout⟩ := h
                subst hout
                obtain ⟨k, hk1, hk2, hes⟩ :=
                  ih (iters + 1) (orEmpty cres) next es₂ tr₂ fin hrec
                exact ⟨k, by omega, by omega, by rw [← he, hes]⟩
          · simp only [eq_false_of_ne_true hi, Bool.false_eq_true, if_false,
              Prod.mk.injEq, LoopOutcome.accepted.injEq] at h
            refine ⟨iters, le_refl _, by omega, ?_⟩
            rw [← h.1, ← h.2.2]

/-- Every entry appended inside the critique/revise loop carries the
step's index. -/
theorem loop_entries_stepIndex (cF : Js → Except String Js)
    (rF : Js → Js → Js → Except String Js) (i t : Nat) (ss ds : Js) :
    ∀ (fuel iters : Nat) (cs cur : Js),
      ∀ e ∈ (critiqueReviseLoop cF rF i t ss ds iters fuel cs cur).1, e.stepIndex = i := by
  intro fuel
  induction fuel with
  | zero => intro iters cs cur e he; simp [critiqueReviseLoop] at he
  | succ f ih =>
      intro iters cs cur e he
      simp only [critiqueReviseLoop] at he
      cases hc : cF cur with
      | error er =>
          rw [hc] at he
          simp only [List.mem_singleton] at he
          subst he; rfl
      | ok cres =>
          rw [hc] at he
          by_cases hi : hasIssues (orEmpty cres) = true
          · simp only [hi, if_true] at he
            cases hr : rF cur (orEmpty cres) ss with
            | error er =>
                rw [hr] at he
                simp only [List.mem_singleton] at he
                subst he; rfl
            | ok next =>
                rw [hr] at he
                simp only at he
                exact ih (iters + 1) (orEmpty cres) next e he
          · simp only [eq_false_of_ne_true hi, Bool.false_eq_true, if_false,
              List.mem_singleton] at he
            subst he; rfl

/-- Every entry appended by one step run carries the step's index. -/
theorem runStep_entries_stepIndex (i t : Nat) (so : Option Step) (st : Js) :
    ∀ e ∈ (runStep i t so st).1, e.stepIndex = i := by
  intro e he
  simp only [runStep] at he
  split at he
  case _ sd sc sr dFn cFn rFn hd hc hr =>
    cases hds : dFn st with
    | error er =>
        rw [hds] at he
        simp only [List.mem_singleton] at he
        subst he; rfl
    | ok ds =>
        rw [hds] at he
        simp only at he
        split at he
        · simp only at he
          exact loop_entries_stepIndex cFn rFn i t st ds _ 0 (Js.arr []) ds e he
        · simp only at he
          exact loop_entries_stepIndex cFn rFn i t st ds _ 0 (Js.arr []) ds e he
        · split at he
          · simp only at he
            rcases List.mem_append.mp he with h | h
            · exact loop_entries_stepIndex cFn rFn i t st ds _ 0 (Js.arr []) ds e h
            · simp only [List.mem_singleton] at h
              subst h; rfl
          · simp only at he
            exact loop_entries_stepIndex cFn rFn i t st ds _ 0 (Js.arr []) ds e he
  case _ =>
    simp only [List.mem_singleton] at he
    subst he; rfl

/-- Entries appended from step index `i` onward carry indices at least
`i`. -/
theorem runSteps_entries_lb (l : List (Option Step)) :
    ∀ (i : Nat) (st : Js), ∀ e ∈ (runSteps l i st).1, i ≤ e.stepIndex := by
  induction l with
  | nil => intro i st e he; simp [runSteps] at he
  | cons s rest ih =>
      intro i st e he
      simp only [runSteps] at he
      cases hr : (runStep i i s st).2.2 with
      | error er =>
          rw [hr] at he
          simp only at he
          exact le_of_eq (runStep_entries_stepIndex i i s st e he).symm
      | ok next =>
          rw [hr] at he
          simp only at he
          rcases List.mem_append.mp he with h | h
          · exact le_of_eq (runStep_entries_stepIndex i i s st e h).symm
          · have := ih (i + 1) next e h
            omega

/-- A list of entries all carrying the same step index is pairwise
non-decreasing in `stepIndex`. -/
theorem pairwise_le_of_const_stepIndex (es : List AuditEntry) (i : Nat)
    (h : ∀ e ∈ es, e.stepIndex = i) :
    List.Pairwise (fun a b => a.stepIndex ≤ b.stepIndex) es := by
  induction es with
  | nil => simp
  | cons a tl ih =>
      refine List.Pairwise.cons (fun b hb => ?_) (ih fun e he => h e (List.mem_cons_of_mem a he))
      rw [h a (List.mem_cons_self a tl), h b (List.mem_cons_of_mem a hb)]

/-- The audit entries produced from step `i` onward are pairwise
non-decreasing in `stepIndex`. -/
theorem runSteps_entries_pairwise (l : List (Option Step)) :
    ∀ (i : Nat) (st : Js),
      List.Pairwise (fun a b : AuditEntry => a.stepIndex ≤ b.stepIndex) (runSteps l i st).1 := by
  induction l with
  | nil => intro i st; simp [runSteps]
  | cons s rest ih =>
      intro i st
      simp only [runSteps]
      cases hr : (runStep i i s st).2.2 with
      | error er =>
          simp only
          exact pairwise_le_of_const_stepIndex _ i (runStep_entries_stepIndex i i s st)
      | ok next =>
          simp only
          rw [List.pairwise_append]
          refine ⟨pairwise_le_of_const_stepIndex _ i (runStep_entries_stepIndex i i s st),
                  ih (i + 1) next, fun a ha b hb => ?_⟩
          have h1 := runStep_entries_stepIndex i i s st a ha
          have h2 := runSteps_entries_lb rest (i + 1) next b hb
          omega

/-- Decomposition of a run over a concatenated step list: the prefix runs
first, and on its success the suffix continues from the reached state at
the shifted index. -/
theorem runSteps_append (l1 l2 : List (Option Step)) :
    ∀ (i : Nat) (st : Js),
      runSteps (l1 ++ l2) i st =
        match runSteps l1 i st with
        | (es, .error e) => (es, .error e)
        | (es, .ok s2) =>
            ((es ++ (runSteps l2 (i + l1.length) s2).1), (runSteps l2 (i + l1.length) s2).2) := by
  induction l1 with
  | nil => intro i st; simp [runSteps]
  | cons s rest ih =>
      intro i st
      simp only [List.cons_append, runSteps]
      cases hr : (runStep i i s st).2.2 with
      | error er => simp only
      | ok next =>
          simp only
          rcases h2 : runSteps rest (i + 1) next with ⟨es2, r2⟩
          have ih2 := ih (i + 1) next
          rw [h2] at ih2
          rw [show (rest.append l2) = rest ++ l2 from rfl, ih2]
          cases r2 with
          | error er => simp
          | ok s3 =>
              have harith : i + 1 + rest.length = i + (s :: rest).length := by
                simp [List.length_cons]; omega
              rw [harith]
              simp [List.append_assoc]

/-- A step with a missing capability takes the invalid branch: one
`invalid` entry carrying the current state, and the run-terminating error
naming the step index. -/
theorem runStep_invalid (i t : Nat) (so : Option Step) (st : Js)
    (h : (so.getD emptyStep).draft = none ∨ (so.getD emptyStep).critique = none ∨
         (so.getD emptyStep).revise = none) :
    runStep i t so st =
      ([{ stepIndex := i, ts := t, phase := "invalid",
          error := some (invalidStepMsg i), inputState := some st }],
       [], .error (invalidStepMsg i)) := by
  rcases hso : so.getD emptyStep with ⟨d, c, r, m, dl⟩
  rw [hso] at h
  simp only [runStep, hso]
  simp only at h
  rcases h with h | h | h
  · subst h; rfl
  · subst h
    cases d with
    | none => rfl
    | some dFn => rfl
  · subst h
    cases d with
    | none => rfl
    | some dFn =>
        cases c with
        | none => rfl
        | some cFn => rfl

/-- C1 (amended): for every step with effective iteration cap `N`
(`maxIterations` with values < 1 coerced to 1, default 3), one step run
performs at most N critique invocations and at most N revise invocations
(not N−1: the loop revises once per iteration even on the last one). -/
theorem claim1_invocation_bound (i t : Nat) (so : Option Step) (st : Js) :
    critCalls (runStep i t so st).2.1 ≤ effMaxIters ((so.getD emptyStep).maxIterations) ∧
    revCalls (runStep i t so st).2.1 ≤ effMaxIters ((so.getD emptyStep).maxIterations) := by
  rcases hso : so.getD emptyStep with ⟨d, c, r, m, dl⟩
  simp only [runStep, hso]
  cases d with
  | none => simp [critCalls, revCalls]
  | some dFn =>
      cases c with
      | none => simp [critCalls, revCalls]
      | some cFn =>
          cases r with
          | none => simp [critCalls, revCalls]
          | some rFn =>
              simp only
              cases hds : dFn st with
              | error er => simp [critCalls, revCalls]
              | ok ds =>
                  simp only
                  have h := loop_trace_counts cFn rFn i t st ds (effMaxIters m) 0 (Js.arr []) ds
                  rcases hl : critiqueReviseLoop cFn rFn i t st ds 0 (effMaxIters m) (Js.arr []) ds
                    with ⟨es, tr, out⟩
                  rw [hl] at h
                  simp only at h
                  cases out with
                  | accepted fin => simpa using h
                  | failed er => simpa using h
                  | exhausted it cs cur =>
                      simp only
                      split
                      · simpa using h
                      · simpa using h

/-- C1 (counterexample): with `maxIterations = 1` and a critique that
never clears, the step performs one revise invocation, exceeding the
claimed bound of N − 1 = 0. -/
theorem claim1_counterexample :
    revCalls (runStep 0 0 (some oneIterStep) Js.null).2.1 = 1 ∧
    effMaxIters oneIterStep.maxIterations = 1 ∧
    ¬ revCalls (runStep 0 0 (some oneIterStep) Js.null).2.1 ≤
        effMaxIters oneIterStep.maxIterations - 1 := by
  refine ⟨by decide, by decide, by decide⟩

/-- C3: when a step's iteration budget is exhausted with issues still
pending, the engine appends exactly one `revise:capped` entry carrying
the step's input state, the draft state, the remaining critiques, the
last candidate as `finalState` and the count reached as `iterations`;
it adopts the candidate as the run's current state and proceeds to the
next step. In particular, with `maxIterations = 2` and a critique that
never clears, the run resolves and records a `revise:capped` entry with
`iterations = 2`. -/
theorem claim3_capped_step
    (dFn cFn : Js → Except String Js) (rFn : Js → Js → Js → Except String Js)
    (m dl : Option Int) (i : Nat) (st ds : Js) (es : List AuditEntry) (tr : List Ev)
    (it : Nat) (cs cur : Js)
    (hd : dFn st = .ok ds)
    (hx : critiqueReviseLoop cFn rFn i i st ds 0 (effMaxIters m) (Js.arr []) ds
            = (es, tr, .exhausted it cs cur)) :
    (runStep i i (some { draft := some dFn, critique := some cFn, revise := some rFn,
                         maxIterations := m, delayMs := dl }) st
       = ([{ stepIndex := i, ts := i, phase := "revise:capped",
             inputState := some st, draftState := some ds,
             critiques := some cs, finalState := some cur,
             iterations := some it }], tr, .ok cur)) ∧
    it = effMaxIters m ∧
    (∀ rest : List (Option Step),
      runSteps (some { draft := some dFn, critique := some cFn, revise := some rFn,
                       maxIterations := m, delayMs := dl } :: rest) i st
        = ({ stepIndex := i, ts := i, phase := "revise:capped",
             inputState := some st, draftState := some ds,
             critiques := some cs, finalState := some cur,
             iterations := some it } :: (runSteps rest (i + 1) cur).1,
           (runSteps rest (i + 1) cur).2)) ∧
    (execute (Js.obj []) [some capStep]).2 = .ok (Js.num 2) ∧
    (execute (Js.obj []) [some capStep]).1
      = [{ stepIndex := 0, ts := 0, phase := "revise:capped",
           inputState := some (Js.obj []), draftState := some (Js.num 0),
           critiques := some (Js.arr [Js.str "not three"]),
           finalState := some (Js.num 2), iterations := some 2 }] := by
  obtain ⟨hit, hes, -, htail⟩ :=
    loop_exhausted_shape cFn rFn i i st ds (effMaxIters m) 0 (Js.arr []) ds es tr it cs cur hx
  have hiss : hasIssues cs = true := (htail (effMaxIters_pos m)).1
  have hcond : (decide (it ≥ effMaxIters m) && hasIssues cs) = true := by
    rw [hiss]
    simp
    omega
  have h1 : runStep i i (some { draft := some dFn, critique := some cFn, revise := some rFn,
                                maxIterations := m, delayMs := dl }) st
      = ([{ stepIndex := i, ts := i, phase := "revise:capped",
            inputState := some st, draftState := some ds,
            critiques := some cs, finalState := some cur,
            iterations := some it }], tr, .ok cur) := by
    simp only [runStep, Option.getD_some]
    rw [hd]
    simp only
    rw [hx]
    simp only
    rw [if_pos hcond]
    rw [hes]
    simp
  refine ⟨h1, by omega, fun rest => ?_, rfl, rfl⟩
  simp only [runSteps]
  rw [h1]
  simp

/-- C3 (witness): the cap-and-proceed scenario with `maxIterations = 2`
resolves to the twice-revised state. -/
theorem claim3_capped_step_witness :
    (runStep 0 0 (some { draft := some capDraft, critique := some capCritique,
                         revise := some capRevise, maxIterations := some 2, delayMs := none })
       (Js.obj [])).2.2 = .ok (Js.num 2) := by
  have h := claim3_capped_step capDraft capCritique capRevise (some 2) none 0 (Js.obj [])
    (Js.num 0) []
    [.crit (Js.num 0) (.ok (Js.arr [Js.str "not three"])),
     .revi (Js.num 0) (Js.arr [Js.str "not three"]) (.ok (Js.num 1)),
     .crit (Js.num 1) (.ok (Js.arr [Js.str "not three"])),
     .revi (Js.num 1) (Js.arr [Js.str "not three"]) (.ok (Js.num 2))]
    2 (Js.arr [Js.str "not three"]) (Js.num 2) rfl rfl
  rw [h.1]

/-- Entries appended from step index `i` onward carry indices below
`i` plus the number of remaining steps. -/
theorem runSteps_entries_ub (l : List (Option Step)) :
    ∀ (i : Nat) (st : Js), ∀ e ∈ (runSteps l i st).1, e.stepIndex < i + l.length := by
  induction l with
  | nil => intro i st e he; simp [runSteps] at he
  | cons s rest ih =>
      intro i st e he
      simp only [runSteps] at he
      cases hr : (runStep i i s st).2.2 with
      | error er =>
          rw [hr] at he
          simp only at he
          have := runStep_entries_stepIndex i i s st e he
          simp only [List.length_cons]
          omega
      | ok next =>
          rw [hr] at he
          simp only at he
          rcases List.mem_append.mp he with h | h
          · have := runStep_entries_stepIndex i i s st e h
            simp only [List.length_cons]
            omega
          · have := ih (i + 1) next e h
            simp only [List.length_cons]
            omega

/-- C2 (amended): the digest depends on the entries only through their
canonical payloads: two entry sequences with equal payload projections
have equal digests; in particular a mutation of a field outside the
hashed payload (such as `error`, `iterations`, or critique contents with
unchanged count) cannot change the digest, so sensitivity holds only for
the hashed payload fields and only up to hash collisions. -/
theorem claim2_payload_determines_root : ∀ (l1 l2 : List AuditEntry),
    l1.map payload = l2.map payload → computeAuditRoot l1 = computeAuditRoot l2 := by
  have key : ∀ (l1 l2 : List AuditEntry) (acc : List Nat),
      l1.map payload = l2.map payload → l1.foldl chainStep acc = l2.foldl chainStep acc := by
    intro l1
    induction l1 with
    | nil =>
        intro l2 acc h
        cases l2 with
        | nil => rfl
        | cons b tl => simp at h
    | cons a tl ih =>
        intro l2 acc h
        cases l2 with
        | nil => simp at h
        | cons b tl2 =>
            simp only [List.map_cons, List.cons.injEq] at h
            simp only [List.foldl_cons]
            have hstep : chainStep acc a = chainStep acc b := by
              unfold chainStep
              rw [h.1]
            rw [hstep]
            exact ih tl2 (chainStep acc b) h.2
  intro l1 l2 h
  unfold computeAuditRoot
  rw [key l1 l2 [] h]

/-- C2 (witness): two single-entry sequences whose entries differ only in
`error` have equal payload projections and hence equal digests. -/
theorem claim2_payload_determines_root_witness :
    computeAuditRoot [entryErrA] = computeAuditRoot [entryErrB] :=
  claim2_payload_determines_root [entryErrA] [entryErrB] rfl

/-- C2 (counterexample): two entry sequences identical except for the
`error` field of their single entry have the same digest, refuting the
unrestricted sensitivity claim. -/
theorem claim2_counterexample :
    computeAuditRoot [entryErrA] = computeAuditRoot [entryErrB] ∧
    entryErrA.error ≠ entryErrB.error ∧
    entryErrA.stepIndex = entryErrB.stepIndex ∧ entryErrA.ts = entryErrB.ts ∧
    entryErrA.phase = entryErrB.phase ∧ entryErrA.inputState = entryErrB.inputState ∧
    entryErrA.draftState = entryErrB.draftState ∧ entryErrA.critiques = entryErrB.critiques ∧
    entryErrA.finalState = entryErrB.finalState ∧ entryErrA.iterations = entryErrB.iterations := by
  refine ⟨rfl, by decide, rfl, rfl, rfl, rfl, rfl, rfl, rfl, rfl⟩

/-- C5: `computeAuditRoot` is exactly the spec's sequential fold — an
empty accumulator, extended per entry by hashing the accumulator followed
by the serialized canonical payload — and the digest of the empty entry
sequence is the empty string (hex of the zero-length accumulator). -/
theorem claim5_root_spec :
    (∀ es : List AuditEntry, computeAuditRoot es = bytesToHex (specAuditFold [] es)) ∧
    computeAuditRoot [] = "" := by
  have key : ∀ (es : List AuditEntry) (acc : List Nat),
      es.foldl chainStep acc = specAuditFold acc es := by
    intro es
    induction es with
    | nil => intro acc; rfl
    | cons e tl ih =>
        intro acc
        rw [List.foldl_cons, ih]
        rfl
  exact ⟨fun es => by unfold computeAuditRoot; rw [key es []], rfl⟩

/-- C7: over any run, successful or failed, the `stepIndex` values of the
audit entry sequence are non-decreasing in append order. -/
theorem claim7_stepIndex_monotone (init : Js) (steps : List (Option Step)) :
    List.Pairwise (fun a b => a ≤ b) ((execute init steps).1.map AuditEntry.stepIndex) := by
  have h := runSteps_entries_pairwise steps 0 init
  unfold execute
  exact List.Pairwise.map _ (fun a b hab => hab) h

/-- C6: a step with a missing or non-callable capability at index `i`
(after a succeeding prefix) appends one `invalid` entry carrying the
current state, fails the run with an error identifying index `i`, and no
entry with a step index beyond `i` exists. -/
theorem claim6_invalid_step (pre post : List (Option Step)) (bad : Step)
    (init s : Js) (es : List AuditEntry)
    (hpre : runSteps pre 0 init = (es, .ok s))
    (hbad : bad.draft = none ∨ bad.critique = none ∨ bad.revise = none) :
    execute init (pre ++ some bad :: post)
      = (es ++ [{ stepIndex := pre.length, ts := pre.length, phase := "invalid",
                  error := some (invalidStepMsg pre.length), inputState := some s }],
         .error (invalidStepMsg pre.length)) ∧
    ∀ e ∈ (execute init (pre ++ some bad :: post)).1, e.stepIndex ≤ pre.length := by
  have hinv := runStep_invalid pre.length pre.length (some bad) s (by simpa using hbad)
  have hrun : runSteps (some bad :: post) pre.length s
      = ([{ stepIndex := pre.length, ts := pre.length, phase := "invalid",
            error := some (invalidStepMsg pre.length), inputState := some s }],
         .error (invalidStepMsg pre.length)) := by
    simp only [runSteps]
    rw [hinv]
  have happ := runSteps_append pre (some bad :: post) 0 init
  rw [hpre] at happ
  simp only [Nat.zero_add] at happ
  rw [hrun] at happ
  simp only at happ
  have hmain : execute init (pre ++ some bad :: post)
      = (es ++ [{ stepIndex := pre.length, ts := pre.length, phase := "invalid",
                  error := some (invalidStepMsg pre.length), inputState := some s }],
         .error (invalidStepMsg pre.length)) := happ
  refine ⟨hmain, fun e he => ?_⟩
  rw [hmain] at he
  rcases List.mem_append.mp he with h | h
  · have h2 := runSteps_entries_ub pre 0 init e (by rw [hpre]; exact h)
    omega
  · simp only [List.mem_singleton] at h
    subst h
    exact le_refl _

/-- C6 (witness): a missing `draft` at index 1 of a two-step list fails
the run with the error naming step 1. -/
theorem claim6_invalid_step_witness :
    (execute Js.null ([some passStep] ++ some noDraftStep :: [])).2
      = .error (invalidStepMsg 1) := by
  have h := claim6_invalid_step [some passStep] [] noDraftStep Js.null (Js.num 7)
    [{ stepIndex := 0, ts := 0, phase := "draft:accepted", inputState := some Js.null,
       draftState := some (Js.num 7), critiques := some (Js.arr []),
       finalState := some (Js.num 7), iterations := some 0 }] rfl (Or.inl rfl)
  rw [h.1]
  rfl

/-- C4: when a critique invocation reports no issues on an allowed
iteration (including the final one), the step ends with a single accepted
entry — `draft:accepted` at iteration 0, `revise:accepted` otherwise —
and no `revise:capped` entry is appended; with `maxIterations` coerced to
1 and an empty first critique, only `draft:accepted` is possible. -/
theorem claim4_accept_over_cap
    (dFn cFn : Js → Except String Js) (rFn : Js → Js → Js → Except String Js)
    (m dl : Option Int) (i t : Nat) (st ds fin : Js) (es : List AuditEntry) (tr : List Ev)
    (hd : dFn st = .ok ds)
    (hacc : critiqueReviseLoop cFn rFn i t st ds 0 (effMaxIters m) (Js.arr []) ds
              = (es, tr, .accepted fin)) :
    (runStep i t (some { draft := some dFn, critique := some cFn, revise := some rFn,
                         maxIterations := m, delayMs := dl }) st = (es, tr, .ok fin)) ∧
    (∃ k, k < effMaxIters m ∧
       es = [{ stepIndex := i, ts := t,
               phase := if k == 0 then "draft:accepted" else "revise:accepted",
               inputState := some st, draftState := some ds,
               critiques := some (Js.arr []), finalState := some fin,
               iterations := some k }]) ∧
    (∀ e ∈ es, e.phase ≠ "revise:capped") ∧
    runStep 0 0 (some coercedCleanStep) Js.null
      = ([{ stepIndex := 0, ts := 0, phase := "draft:accepted", inputState := some Js.null,
            draftState := some (Js.num 7), critiques := some (Js.arr []),
            finalState := some (Js.num 7), iterations := some 0 }],
         [.crit (Js.num 7) (.ok (Js.arr []))], .ok (Js.num 7)) := by
  obtain ⟨k, hk0, hklt, hes⟩ :=
    loop_accepted_shape cFn rFn i t st ds (effMaxIters m) 0 (Js.arr []) ds es tr fin hacc
  have h1 : runStep i t (some { draft := some dFn, critique := some cFn, revise := some rFn,
                                maxIterations := m, delayMs := dl }) st = (es, tr, .ok fin) := by
    simp only [runStep, Option.getD_some]
    rw [hd]
    simp only
    rw [hacc]
  refine ⟨h1, ⟨k, by omega, hes⟩, fun e he => ?_, rfl⟩
  rw [hes] at he
  simp only [List.mem_singleton] at he
  subst he
  simp only
  split
  · decide
  · decide

/-- C4 (witness): with `maxIterations = 0` coerced to 1 and a clean first
critique, the step's only entry is `draft:accepted`. -/
theorem claim4_accept_over_cap_witness :
    runStep 0 0 (some { draft := some sevenDraft, critique := some cleanCritique,
                        revise := some idRevise, maxIterations := some 0, delayMs := none })
      Js.null
      = ([{ stepIndex := 0, ts := 0, phase := "draft:accepted", inputState := some Js.null,
            draftState := some (Js.num 7), critiques := some (Js.arr []),
            finalState := some (Js.num 7), iterations := some 0 }],
         [.crit (Js.num 7) (.ok (Js.arr []))], .ok (Js.num 7)) := by
  have h := claim4_accept_over_cap sevenDraft cleanCritique idRevise (some 0) none 0 0
    Js.null (Js.num 7) (Js.num 7)
    [{ stepIndex := 0, ts := 0, phase := "draft:accepted", inputState := some Js.null,
       draftState := some (Js.num 7), critiques := some (Js.arr []),
       finalState := some (Js.num 7), iterations := some 0 }]
    [.crit (Js.num 7) (.ok (Js.arr []))] rfl rfl
  exact h.1

/-- C8: if every critique result reports no issues (falsy and non-array
results counting as no issues), revise is never invoked and the step's
single audit entry is `draft:accepted` with `iterations = 0`. -/
theorem claim8_pass_through
    (dFn cFn : Js → Except String Js) (rFn : Js → Js → Js → Except String Js)
    (m dl : Option Int) (i t : Nat) (st ds : Js)
    (hd : dFn st = .ok ds)
    (hclean : ∀ x : Js, ∃ v, cFn x = .ok v ∧ hasIssues (orEmpty v) = false) :
    runStep i t (some { draft := some dFn, critique := some cFn, revise := some rFn,
                        maxIterations := m, delayMs := dl }) st
      = ([{ stepIndex := i, ts := t, phase := "draft:accepted", inputState := some st,
            draftState := some ds, critiques := some (Js.arr []), finalState := some ds,
            iterations := some 0 }],
         [.crit ds (cFn ds)], .ok ds) ∧
    revCalls (runStep i t (some { draft := some dFn, critique := some cFn, revise := some rFn,
                                  maxIterations := m, delayMs := dl }) st).2.1 = 0 := by
  obtain ⟨f, hf⟩ : ∃ f, effMaxIters m = f + 1 :=
    ⟨effMaxIters m - 1, by have := effMaxIters_pos m; omega⟩
  obtain ⟨v, hv, hiss⟩ := hclean ds
  have h1 : runStep i t (some { draft := some dFn, critique := some cFn, revise := some rFn,
                                maxIterations := m, delayMs := dl }) st
      = ([{ stepIndex := i, ts := t, phase := "draft:accepted", inputState := some st,
            draftState := some ds, critiques := some (Js.arr []), finalState := some ds,
            iterations := some 0 }],
         [.crit ds (cFn ds)], .ok ds) := by
    have hloop : critiqueReviseLoop cFn rFn i t st ds 0 (effMaxIters m) (Js.arr []) ds
        = ([{ stepIndex := i, ts := t, phase := "draft:accepted", inputState := some st,
              draftState := some ds, critiques := some (Js.arr []), finalState := some ds,
              iterations := some 0 }], [.crit ds (cFn ds)], .accepted ds) := by
      rw [hf]
      simp only [critiqueReviseLoop]
      rw [hv]
      simp only [hiss, Bool.false_eq_true, if_false]
      rfl
    simp only [runStep, Option.getD_some]
    rw [hd]
    simp only
    rw [hloop]
  exact ⟨h1, by simp [h1, revCalls]⟩

/-- C8 (witness): a falsy (null) critique result counts as no issues and
yields the pass-through behavior. -/
theorem claim8_pass_through_witness :
    runStep 0 0 (some { draft := some sevenDraft, critique := some falsyCritique,
                        revise := some idRevise, maxIterations := none, delayMs := none })
      Js.null
      = ([{ stepIndex := 0, ts := 0, phase := "draft:accepted", inputState := some Js.null,
            draftState := some (Js.num 7), critiques := some (Js.arr []),
            finalState := some (Js.num 7), iterations := some 0 }],
         [.crit (Js.num 7) (falsyCritique (Js.num 7))], .ok (Js.num 7)) :=
  (claim8_pass_through sevenDraft falsyCritique idRevise none none 0 0 Js.null (Js.num 7)
    rfl (fun _ => ⟨Js.null, rfl, rfl⟩)).1

/-- C9: a null/undefined element of the step list does not crash property
access: after a succeeding prefix it is treated exactly like a step with
a missing capability — one `invalid` entry for its index, and the run
fails with the error naming that index. -/
theorem claim9_null_element (pre post : List (Option Step)) (init s : Js) (es : List AuditEntry)
    (hpre : runSteps pre 0 init = (es, .ok s)) :
    execute init (pre ++ none :: post)
      = (es ++ [{ stepIndex := pre.length, ts := pre.length, phase := "invalid",
                  error := some (invalidStepMsg pre.length), inputState := some s }],
         .error (invalidStepMsg pre.length)) ∧
    execute init (pre ++ none :: post) = execute init (pre ++ some emptyStep :: post) := by
  have hinv := runStep_invalid pre.length pre.length none s (Or.inl rfl)
  have hinv2 := runStep_invalid pre.length pre.length (some emptyStep) s (Or.inl rfl)
  have hrun : runSteps (none :: post) pre.length s
      = ([{ stepIndex := pre.length, ts := pre.length, phase := "invalid",
            error := some (invalidStepMsg pre.length), inputState := some s }],
         .error (invalidStepMsg pre.length)) := by
    simp only [runSteps]
    rw [hinv]
  have hrun2 : runSteps (some emptyStep :: post) pre.length s
      = ([{ stepIndex := pre.length, ts := pre.length, phase := "invalid",
            error := some (invalidStepMsg pre.length), inputState := some s }],
         .error (invalidStepMsg pre.length)) := by
    simp only [runSteps]
    rw [hinv2]
  have happ := runSteps_append pre (none :: post) 0 init
  rw [hpre] at happ
  simp only [Nat.zero_add] at happ
  rw [hrun] at happ
  have happ2 := runSteps_append pre (some emptyStep :: post) 0 init
  rw [hpre] at happ2
  simp only [Nat.zero_add] at happ2
  rw [hrun2] at happ2
  exact ⟨happ, happ.trans happ2.symm⟩

/-- C9 (witness): a null element at index 1 after a succeeding step fails
the run with the error naming step 1. -/
theorem claim9_null_element_witness :
    (execute Js.null ([some passStep] ++ none :: [])).2 = .error (invalidStepMsg 1) := by
  have h := claim9_null_element [some passStep] [] Js.null (Js.num 7)
    [{ stepIndex := 0, ts := 0, phase := "draft:accepted", inputState := some Js.null,
       draftState := some (Js.num 7), critiques := some (Js.arr []),
       finalState := some (Js.num 7), iterations := some 0 }] rfl
  rw [h.1]
  rfl

/-- C10: for a step that caps, the capped entry's `finalState` is the
value returned by the step's last revise invocation and critique is never
invoked on it: the invocation trace ends with the critique reporting the
remaining issues on the previous candidate followed by the revise call
that produced the final state, and the entry's `critiques` field holds
exactly those issues (reported for the revise's input, not for the final
state). -/
theorem claim10_capped_final_uncritiqued
    (dFn cFn : Js → Except String Js) (rFn : Js → Js → Js → Except String Js)
    (m dl : Option Int) (i t : Nat) (st ds : Js) (es : List AuditEntry) (tr : List Ev)
    (it : Nat) (cs cur : Js)
    (hd : dFn st = .ok ds)
    (hx : critiqueReviseLoop cFn rFn i t st ds 0 (effMaxIters m) (Js.arr []) ds
            = (es, tr, .exhausted it cs cur)) :
    (∃ (tr₀ : List Ev) (p raw : Js),
       tr = tr₀ ++ [.crit p (.ok raw), .revi p cs (.ok cur)] ∧
       cs = orEmpty raw ∧ rFn p cs st = .ok cur) ∧
    runStep i t (some { draft := some dFn, critique := some cFn, revise := some rFn,
                        maxIterations := m, delayMs := dl }) st
      = ([{ stepIndex := i, ts := t, phase := "revise:capped", inputState := some st,
            draftState := some ds, critiques := some cs, finalState := some cur,
            iterations := some it }], tr, .ok cur) := by
  obtain ⟨hit, hes, -, htail⟩ :=
    loop_exhausted_shape cFn rFn i t st ds (effMaxIters m) 0 (Js.arr []) ds es tr it cs cur hx
  obtain ⟨hiss, tr₀, p, raw, htr, hraw, hrev⟩ := htail (effMaxIters_pos m)
  have hcond : (decide (it ≥ effMaxIters m) && hasIssues cs) = true := by
    rw [hiss]
    simp
    omega
  refine ⟨⟨tr₀, p, raw, htr, hraw, hrev⟩, ?_⟩
  simp only [runStep, Option.getD_some]
  rw [hd]
  simp only
  rw [hx]
  simp only
  rw [if_pos hcond]
  rw [hes]
  simp

/-- C10 (witness): in the cap-and-proceed scenario, the capped entry's
final state is the output of the second revise call, with the issues
reported for the first-revised candidate. -/
theorem claim10_capped_final_uncritiqued_witness :
    runStep 0 1 (some { draft := some capDraft, critique := some capCritique,
                        revise := some capRevise, maxIterations := some 2, delayMs := none })
      (Js.obj [])
      = ([{ stepIndex := 0, ts := 1, phase := "revise:capped", inputState := some (Js.obj []),
            draftState := some (Js.num 0), critiques := some (Js.arr [Js.str "not three"]),
            finalState := some (Js.num 2), iterations := some 2 }],
         [.crit (Js.num 0) (.ok (Js.arr [Js.str "not three"])),
          .revi (Js.num 0) (Js.arr [Js.str "not three"]) (.ok (Js.num 1)),
          .crit (Js.num 1) (.ok (Js.arr [Js.str "not three"])),
          .revi (Js.num 1) (Js.arr [Js.str "not three"]) (.ok (Js.num 2))],
         .ok (Js.num 2)) :=
  (claim10_capped_final_uncritiqued capDraft capCritique capRevise (some 2) none 0 1
    (Js.obj []) (Js.num 0) []
    [.crit (Js.num 0) (.ok (Js.arr [Js.str "not three"])),
     .revi (Js.num 0) (Js.arr [Js.str "not three"]) (.ok (Js.num 1)),
     .crit (Js.num 1) (.ok (Js.arr [Js.str "not three"])),
     .revi (Js.num 1) (Js.arr [Js.str "not three"]) (.ok (Js.num 2))]
    2 (Js.arr [Js.str "not three"]) (Js.num 2) rfl rfl).2

end SAAF
